import Mathlib

/-!
Verification of the cursor abstractions in libtins' `include/tins/memory_helpers.h`
(`Tins::Memory::InputMemoryStream` and `Tins::Memory::OutputMemoryStream`).

Embedding choices:
* Machine memory is a total function `Nat → Nat` from byte addresses to byte
  values; a cursor holds a current address `buffer_` and a remaining count
  `size_`, mirroring the two fields of the C++ classes.
* `size_` is a `uint32_t` in the source; all arithmetic on it is performed
  modulo `2^32` (`UMOD`).  In particular `skip` performs the source's
  unchecked `size_ -= size`, which wraps, via `wsub`.
* A raw `memcpy` of a `sizeof(T)`-byte scalar is modelled as the verbatim
  list of bytes at the current address; the numeric value of the scalar on
  the (little-endian) host is recovered with `fromLE`, and `write_value`
  stores the little-endian bytes `bytesLE`.
* A C++ function that throws is modelled on the read side as
  `Except TinsError _` and on the write side as a pair
  `OutputMemoryStream × Option TinsError`, where the returned stream is the
  state at the moment the exception propagates; since every check precedes
  every mutation in the source, that state is the input state on failure.
-/

namespace Tins
namespace Memory

/-- The modulus of `uint32_t` arithmetic. -/
def UMOD : Nat := 4294967296

/-- Wrapping `uint32_t` subtraction: the value of `a - b` computed on
`uint32_t` operands (both reduced modulo `2^32`). -/
def wsub (a b : Nat) : Nat := (a + (UMOD - b % UMOD)) % UMOD

/-- The two exception types thrown by the streams: `malformed_packet`
(raised by `InputMemoryStream`) and `serialization_error`
(raised by `OutputMemoryStream`), from `exceptions.h`. -/
inductive TinsError where
  | malformed_packet
  | serialization_error
deriving DecidableEq

/-- The `n` bytes of memory starting at address `p`: the source of a
`memcpy(out, buffer, n)` in `read_data` / `read_value`. -/
def readMemBytes (mem : Nat → Nat) : Nat → Nat → List Nat
  | _, 0 => []
  | p, n + 1 => mem p :: readMemBytes mem (p + 1) n

/-- Store the byte list `bs` into memory starting at address `p`: the effect
of a `memcpy(buffer, src, n)` / `std::copy` in `write_data` / `write_value`. -/
def writeMemBytes (mem : Nat → Nat) (p : Nat) : List Nat → (Nat → Nat)
  | [] => mem
  | b :: rest => writeMemBytes (fun a => if a = p then b else mem a) (p + 1) rest

/-- The little-endian byte representation, `w` bytes wide, of the scalar
value `v`: what `memcpy` out of a width-`w` unsigned scalar holding `v`
produces on a little-endian host. -/
def bytesLE : Nat → Nat → List Nat
  | 0, _ => []
  | w + 1, v => (v % 256) :: bytesLE w (v / 256)

/-- The scalar value a little-endian host reads from a byte list via
`memcpy` into a width-`bs.length` unsigned scalar. -/
def fromLE : List Nat → Nat
  | [] => 0
  | b :: rest => b + 256 * fromLE rest

/-- `Tins::Memory::InputMemoryStream`: a read cursor, fields `buffer_`
(the current pointer, modelled as an address into `mem`) and `size_`
(the remaining byte count, a `uint32_t`). -/
structure InputMemoryStream where
  mem : Nat → Nat
  buffer_ : Nat
  size_ : Nat

namespace InputMemoryStream

/-- `skip`: `buffer_ += size; size_ -= size;` — unchecked, the subtraction
wraps modulo `2^32`. -/
def skip (s : InputMemoryStream) (size : Nat) : InputMemoryStream :=
  { s with buffer_ := s.buffer_ + size, size_ := wsub s.size_ size }

/-- `can_read(byte_count)`: `size_ >= byte_count`. -/
def can_read (s : InputMemoryStream) (byte_count : Nat) : Bool :=
  byte_count ≤ s.size_

/-- `read(T&)` for a fixed-width scalar of width `w = sizeof(T)`:
check `can_read(sizeof(T))`, throw `malformed_packet` on failure, otherwise
`read_value` (a verbatim `memcpy` of `w` bytes) then `skip(sizeof(T))`.
The value-returning `read<T>()` delegates to this and is the same function
in the model.  The result is the raw copied byte list. -/
def read (s : InputMemoryStream) (w : Nat) :
    Except TinsError (List Nat × InputMemoryStream) :=
  if s.can_read w then
    .ok (readMemBytes s.mem s.buffer_ w, s.skip w)
  else
    .error .malformed_packet

/-- `read(void* output_buffer, uint32_t output_buffer_size)`: check
`can_read`, throw `malformed_packet` on failure, otherwise `read_data`
(a verbatim `memcpy`) then `skip`. -/
def read_buf (s : InputMemoryStream) (output_buffer_size : Nat) :
    Except TinsError (List Nat × InputMemoryStream) :=
  if s.can_read output_buffer_size then
    .ok (readMemBytes s.mem s.buffer_ output_buffer_size, s.skip output_buffer_size)
  else
    .error .malformed_packet

/-- `pointer()`: the current read position. -/
def pointer (s : InputMemoryStream) : Nat := s.buffer_

/-- `size()`: the remaining byte count. -/
def size (s : InputMemoryStream) : Nat := s.size_

/-- `size(uint32_t new_size)`: `size_ = new_size;` — unconditionally. -/
def set_size (s : InputMemoryStream) (new_size : Nat) : InputMemoryStream :=
  { s with size_ := new_size }

/-- `operator bool()`: `size_ > 0`. -/
def toBool (s : InputMemoryStream) : Bool :=
  0 < s.size_

end InputMemoryStream

/-- `Tins::IPv4Address`, as this core consumes it: an opaque value carrying
its 4-byte representation as a `uint32_t` (`addr`), constructible from a
`uint32_t` and castable back to one. -/
structure IPv4Address where
  addr : Nat
deriving DecidableEq

/-- `Tins::IPv6Address`, as this core consumes it: an opaque 16-byte value,
constructible from a raw byte pointer and iterable over its bytes. -/
structure IPv6Address where
  bytes : List Nat
deriving DecidableEq

/-- `Tins::HWAddress<n>`, as this core consumes it: an opaque `n`-byte value,
constructible from a raw byte pointer and iterable over its bytes. -/
structure HWAddress (n : Nat) where
  bytes : List Nat
deriving DecidableEq

namespace InputMemoryStream

/-- `read(IPv4Address&)`: `address = IPv4Address(read<uint32_t>());` —
the 4-byte scalar path, its value interpreted by the little-endian host. -/
def read_ipv4 (s : InputMemoryStream) :
    Except TinsError (IPv4Address × InputMemoryStream) :=
  (s.read 4).map fun p => (⟨fromLE p.1⟩, p.2)

/-- `read(IPv6Address&)`: check `can_read(16)`, throw `malformed_packet` on
failure, otherwise construct the address from the 16 bytes at `pointer()`
and `skip(16)`. -/
def read_ipv6 (s : InputMemoryStream) :
    Except TinsError (IPv6Address × InputMemoryStream) :=
  if s.can_read 16 then
    .ok (⟨readMemBytes s.mem s.buffer_ 16⟩, s.skip 16)
  else
    .error .malformed_packet

/-- `read(HWAddress<n>&)`: check `can_read(n)`, throw `malformed_packet` on
failure, otherwise construct the address from the `n` bytes at `pointer()`
and `skip(n)`. -/
def read_hw (s : InputMemoryStream) (n : Nat) :
    Except TinsError (HWAddress n × InputMemoryStream) :=
  if s.can_read n then
    .ok (⟨readMemBytes s.mem s.buffer_ n⟩, s.skip n)
  else
    .error .malformed_packet

end InputMemoryStream

/-- `Tins::Memory::OutputMemoryStream`: a write cursor, fields `buffer_`
(the current pointer, an address into `mem`) and `size_` (the remaining
capacity, a `uint32_t`). -/
structure OutputMemoryStream where
  mem : Nat → Nat
  buffer_ : Nat
  size_ : Nat

namespace OutputMemoryStream

/-- `skip`: `buffer_ += size; size_ -= size;` — unchecked wrapping
subtraction, as on the read side. -/
def skip (s : OutputMemoryStream) (size : Nat) : OutputMemoryStream :=
  { s with buffer_ := s.buffer_ + size, size_ := wsub s.size_ size }

/-- `write(ForwardIterator start, ForwardIterator end)`: the range is the
byte list `bs` with `length = std::distance(start, end)`; check
`size_ < length` and throw `serialization_error` (state untouched, since the
check precedes the copy), otherwise `std::copy` then `skip(length)`. -/
def write_range (s : OutputMemoryStream) (bs : List Nat) :
    OutputMemoryStream × Option TinsError :=
  if s.size_ < bs.length then
    (s, some .serialization_error)
  else
    (({ s with mem := writeMemBytes s.mem s.buffer_ bs }).skip bs.length, none)

/-- `write(const T&)` for a fixed-width scalar of width `w = sizeof(T)`
holding value `v`: check `size_ < sizeof(value)` and throw
`serialization_error` (state untouched), otherwise `write_value` (a verbatim
`memcpy` of the scalar's `w` little-endian bytes) then `skip(sizeof(value))`. -/
def write_scalar (s : OutputMemoryStream) (w v : Nat) :
    OutputMemoryStream × Option TinsError :=
  if s.size_ < w then
    (s, some .serialization_error)
  else
    (({ s with mem := writeMemBytes s.mem s.buffer_ (bytesLE w v) }).skip w, none)

/-- `write(const uint8_t* ptr, uint32_t length)`: delegates to the range
write over `[ptr, ptr + length)`, i.e. the `length` bytes at address `p`
of memory `srcMem`. -/
def write_ptr (s : OutputMemoryStream) (srcMem : Nat → Nat) (p len : Nat) :
    OutputMemoryStream × Option TinsError :=
  s.write_range (readMemBytes srcMem p len)

/-- `write(const IPv4Address&)`: `write(static_cast<uint32_t>(address));` —
the 4-byte scalar path. -/
def write_ipv4 (s : OutputMemoryStream) (a : IPv4Address) :
    OutputMemoryStream × Option TinsError :=
  s.write_scalar 4 a.addr

/-- `write(const IPv6Address&)`: `write(address.begin(), address.end());` —
the range path over the address's 16 bytes. -/
def write_ipv6 (s : OutputMemoryStream) (a : IPv6Address) :
    OutputMemoryStream × Option TinsError :=
  s.write_range a.bytes

/-- `write(const HWAddress<n>&)`: `write(address.begin(), address.end());` —
the range path over the address's `n` bytes. -/
def write_hw (s : OutputMemoryStream) {n : Nat} (a : HWAddress n) :
    OutputMemoryStream × Option TinsError :=
  s.write_range a.bytes

/-- `fill(uint32_t size, uint8_t value)`: check `size_ < size` and throw
`serialization_error` (state untouched), otherwise
`std::fill(buffer_, buffer_ + size, value)` then `skip(size)`. -/
def fill (s : OutputMemoryStream) (size : Nat) (value : Nat) :
    OutputMemoryStream × Option TinsError :=
  if s.size_ < size then
    (s, some .serialization_error)
  else
    (({ s with mem := writeMemBytes s.mem s.buffer_ (List.replicate size value) }).skip size,
     none)

/-- `pointer()`: the current write position. -/
def pointer (s : OutputMemoryStream) : Nat := s.buffer_

/-- `size()`: the remaining capacity. -/
def size (s : OutputMemoryStream) : Nat := s.size_

end OutputMemoryStream

/-- The 6-byte scenario buffer `[0x01, 0x00, 0x00, 0x00, 0xAB, 0xCD]` of the
spec, laid out at address 0 (bytes outside the buffer read as 0). -/
def buf8 : Nat → Nat := fun a => [1, 0, 0, 0, 171, 205].getD a 0

/-- An `InputMemoryStream` operation, for reasoning about arbitrary
sequences of cursor operations: `skip(n)`, a checked scalar/bulk read of
`w` bytes, and the `size(new_size)` setter. -/
inductive ROp where
  | rskip (n : Nat)
  | rread (w : Nat)
  | rsetSize (n : Nat)

/-- Execute one operation on a read cursor.  A failing `read` throws before
mutating anything, so the state it leaves behind is the input state. -/
def execOp (s : InputMemoryStream) : ROp → InputMemoryStream
  | .rskip n => s.skip n
  | .rread w =>
    match s.read w with
    | .ok p => p.2
    | .error _ => s
  | .rsetSize n => s.set_size n

/-- The discipline the spec imposes on the unchecked operations: `skip(n)`
only with `n ≤` remaining (callers must check `can_read` first) and
`size(new_size)` only to truncate.  Checked reads carry their own bounds
check and are always allowed. -/
def validStep (s : InputMemoryStream) : ROp → Bool
  | .rskip n => n ≤ s.size_
  | .rread _ => true
  | .rsetSize n => n ≤ s.size_

/-- Execute a sequence of operations from left to right. -/
def execSeq : InputMemoryStream → List ROp → InputMemoryStream
  | s, [] => s
  | s, op :: ops => execSeq (execOp s op) ops

/-- Every operation of the sequence is valid in the state it runs in. -/
def validSeq : InputMemoryStream → List ROp → Bool
  | _, [] => true
  | s, op :: ops => validStep s op && validSeq (execOp s op) ops

/-- The cursor invariant of the spec's data model, over a cursor created at
address `base` with length `L`: the position never precedes the start of
the buffer, and `(bytes consumed) + (remaining count) ≤ L`, i.e. the
remaining count is at most `L` minus the bytes consumed. -/
def ReadInv (base L : Nat) (s : InputMemoryStream) : Prop :=
  base ≤ s.buffer_ ∧ s.buffer_ - base + s.size_ ≤ L

/-! ### Arithmetic and memory lemmas -/

theorem wsub_eq_sub {a b : Nat} (hb : b ≤ a) (ha : a < UMOD) :
    wsub a b = a - b := by
  have hb2 : b < UMOD := Nat.lt_of_le_of_lt hb ha
  unfold wsub
  rw [Nat.mod_eq_of_lt hb2, ← Nat.add_sub_assoc (Nat.le_of_lt hb2) a,
    Nat.sub_add_comm hb, Nat.add_mod_right,
    Nat.mod_eq_of_lt (Nat.lt_of_le_of_lt (Nat.sub_le a b) ha)]

theorem wsub_eq_wrap {a b : Nat} (hab : a < b) (hb : b < UMOD) :
    wsub a b = a + UMOD - b := by
  have hbu : b ≤ UMOD := Nat.le_of_lt hb
  have hlt : a + UMOD - b < UMOD := by
    rw [Nat.sub_lt_iff_lt_add (Nat.le_trans hbu (Nat.le_add_left UMOD a))]
    exact Nat.add_lt_add_right hab UMOD
  unfold wsub
  rw [Nat.mod_eq_of_lt hb, ← Nat.add_sub_assoc hbu a, Nat.mod_eq_of_lt hlt]

theorem readMemBytes_length (mem : Nat → Nat) (p n : Nat) :
    (readMemBytes mem p n).length = n := by
  induction n generalizing p with
  | zero => rfl
  | succ n ih => simp [readMemBytes, ih]

theorem bytesLE_length (w v : Nat) : (bytesLE w v).length = w := by
  induction w generalizing v with
  | zero => rfl
  | succ w ih => simp [bytesLE, ih]

theorem readMemBytes_succ (mem : Nat → Nat) (p n : Nat) :
    readMemBytes mem p (n + 1) = mem p :: readMemBytes mem (p + 1) n :=
  rfl

theorem writeMemBytes_lower (mem : Nat → Nat) (p : Nat) (bs : List Nat)
    (a : Nat) (h : a < p) : writeMemBytes mem p bs a = mem a := by
  induction bs generalizing mem p with
  | nil => rfl
  | cons b rest ih =>
    rw [writeMemBytes, ih _ _ (by omega)]
    simp only [if_neg (by omega : ¬ a = p)]

theorem readMemBytes_writeMemBytes (mem : Nat → Nat) (p : Nat) (bs : List Nat) :
    readMemBytes (writeMemBytes mem p bs) p bs.length = bs := by
  induction bs generalizing mem p with
  | nil => rfl
  | cons b rest ih =>
    rw [List.length_cons, readMemBytes_succ, writeMemBytes,
      writeMemBytes_lower _ _ _ _ (by omega), if_pos rfl, ih]

theorem readMemBytes_writeMemBytes_of_length (mem : Nat → Nat) (p : Nat)
    (bs : List Nat) (n : Nat) (h : n = bs.length) :
    readMemBytes (writeMemBytes mem p bs) p n = bs := by
  subst h
  exact readMemBytes_writeMemBytes mem p bs

theorem writeMemBytes_upper (mem : Nat → Nat) (p : Nat) (bs : List Nat)
    (a : Nat) (h : p + bs.length ≤ a) : writeMemBytes mem p bs a = mem a := by
  induction bs generalizing mem p with
  | nil => rfl
  | cons b rest ih =>
    have h2 : p + 1 + rest.length ≤ a := by
      simp only [List.length_cons] at h
      omega
    rw [writeMemBytes, ih _ _ h2]
    show (if a = p then b else mem a) = mem a
    rw [if_neg (by omega)]

theorem writeMemBytes_inside (mem : Nat → Nat) (p : Nat) (bs : List Nat)
    (i : Nat) (h : i < bs.length) :
    writeMemBytes mem p bs (p + i) = bs.getD i 0 := by
  induction bs generalizing mem p i with
  | nil => exact absurd h (by simp)
  | cons b rest ih =>
    cases i with
    | zero =>
      rw [writeMemBytes, writeMemBytes_lower _ _ _ _ (by omega), Nat.add_zero,
        if_pos rfl, List.getD_cons_zero]
    | succ i =>
      have h2 : i < rest.length := by
        simp only [List.length_cons] at h
        omega
      rw [writeMemBytes, show p + (i + 1) = (p + 1) + i by omega,
        ih _ _ _ h2, List.getD_cons_succ]

theorem writeMemBytes_eq_ite (mem : Nat → Nat) (p : Nat) (bs : List Nat)
    (a : Nat) :
    writeMemBytes mem p bs a =
      if p ≤ a ∧ a < p + bs.length then bs.getD (a - p) 0 else mem a := by
  by_cases h : p ≤ a ∧ a < p + bs.length
  · obtain ⟨h1, h2⟩ := h
    have hin := writeMemBytes_inside mem p bs (a - p) (by omega)
    rw [show p + (a - p) = a by omega] at hin
    rw [if_pos ⟨h1, h2⟩, hin]
  · rw [if_neg h]
    rcases Nat.lt_or_ge a p with h1 | h1
    · exact writeMemBytes_lower mem p bs a h1
    · exact writeMemBytes_upper mem p bs a (by omega)

theorem fromLE_bytesLE {w v : Nat} (h : v < 256 ^ w) :
    fromLE (bytesLE w v) = v := by
  induction w generalizing v with
  | zero =>
    simp [bytesLE, fromLE]
    omega
  | succ w ih =>
    rw [bytesLE, fromLE, ih (by rw [pow_succ] at h; omega)]
    omega

theorem readMemBytes_getD (mem : Nat → Nat) (p n i : Nat) (h : i < n) :
    (readMemBytes mem p n).getD i 0 = mem (p + i) := by
  induction n generalizing p i with
  | zero => omega
  | succ n ih =>
    cases i with
    | zero => simp [readMemBytes]
    | succ i =>
      rw [readMemBytes_succ]
      simp only [List.getD_cons_succ]
      rw [ih _ _ (by omega)]
      congr 1
      omega

theorem getD_replicate (n v i : Nat) (h : i < n) :
    (List.replicate n v).getD i 0 = v := by
  induction n generalizing i with
  | zero => omega
  | succ n ih =>
    cases i with
    | zero => simp [List.replicate_succ]
    | succ i =>
      rw [List.replicate_succ, List.getD_cons_succ]
      exact ih i (by omega)

theorem readInv_execOp {base L : Nat} (hL : L < UMOD) {s : InputMemoryStream}
    (op : ROp) (hInv : ReadInv base L s) (hv : validStep s op = true) :
    ReadInv base L (execOp s op) := by
  obtain ⟨h1, h2⟩ := hInv
  have hsz : s.size_ < UMOD := by omega
  cases op with
  | rskip n =>
    simp only [validStep, decide_eq_true_eq] at hv
    refine ⟨show base ≤ s.buffer_ + n by omega, ?_⟩
    show s.buffer_ + n - base + wsub s.size_ n ≤ L
    rw [wsub_eq_sub hv hsz]
    omega
  | rread w =>
    cases hr : s.read w with
    | error e =>
      have he : execOp s (ROp.rread w) = s := by
        simp only [execOp, hr]
      rw [he]
      exact ⟨h1, h2⟩
    | ok p =>
      have he : execOp s (ROp.rread w) = p.2 := by
        simp only [execOp, hr]
      rw [he]
      rw [InputMemoryStream.read] at hr
      split at hr
      case isTrue hc =>
        simp only [InputMemoryStream.can_read, decide_eq_true_eq] at hc
        have hp : p = (readMemBytes s.mem s.buffer_ w, s.skip w) :=
          (Except.ok.inj hr).symm
        subst hp
        refine ⟨show base ≤ s.buffer_ + w by omega, ?_⟩
        show s.buffer_ + w - base + wsub s.size_ w ≤ L
        rw [wsub_eq_sub hc hsz]
        omega
      case isFalse hc => cases hr
  | rsetSize n =>
    simp only [validStep, decide_eq_true_eq] at hv
    refine ⟨show base ≤ s.buffer_ from h1, ?_⟩
    show s.buffer_ - base + n ≤ L
    omega

theorem write_scalar_ok (s : OutputMemoryStream) (w v : Nat) (h : w ≤ s.size_) :
    s.write_scalar w v =
      (⟨writeMemBytes s.mem s.buffer_ (bytesLE w v), s.buffer_ + w,
        wsub s.size_ w⟩, none) := by
  rw [OutputMemoryStream.write_scalar, if_neg (by omega)]
  rfl

theorem write_range_ok (s : OutputMemoryStream) (bs : List Nat)
    (h : bs.length ≤ s.size_) :
    s.write_range bs =
      (⟨writeMemBytes s.mem s.buffer_ bs, s.buffer_ + bs.length,
        wsub s.size_ bs.length⟩, none) := by
  rw [OutputMemoryStream.write_range, if_neg (by omega)]
  rfl

theorem read_ok (s : InputMemoryStream) (w : Nat) (h : w ≤ s.size_) :
    s.read w = .ok (readMemBytes s.mem s.buffer_ w,
      ⟨s.mem, s.buffer_ + w, wsub s.size_ w⟩) := by
  rw [InputMemoryStream.read,
    if_pos (by simp only [InputMemoryStream.can_read, decide_eq_true_eq]; omega)]
  rfl

theorem read_ipv6_ok (s : InputMemoryStream) (h : 16 ≤ s.size_) :
    s.read_ipv6 = .ok (⟨readMemBytes s.mem s.buffer_ 16⟩,
      ⟨s.mem, s.buffer_ + 16, wsub s.size_ 16⟩) := by
  rw [InputMemoryStream.read_ipv6,
    if_pos (by simp only [InputMemoryStream.can_read, decide_eq_true_eq]; omega)]
  rfl

theorem read_hw_ok (s : InputMemoryStream) (n : Nat) (h : n ≤ s.size_) :
    s.read_hw n = .ok (⟨readMemBytes s.mem s.buffer_ n⟩,
      ⟨s.mem, s.buffer_ + n, wsub s.size_ n⟩) := by
  rw [InputMemoryStream.read_hw,
    if_pos (by simp only [InputMemoryStream.can_read, decide_eq_true_eq]; omega)]
  rfl

theorem input_skip_zero (mem : Nat → Nat) (base : Nat) :
    InputMemoryStream.skip ⟨mem, base, 0⟩ 0 = ⟨mem, base, 0⟩ := by
  show (⟨mem, base + 0, wsub 0 0⟩ : InputMemoryStream) = ⟨mem, base, 0⟩
  rw [show wsub 0 0 = 0 from rfl, Nat.add_zero]

theorem output_skip_zero (mem : Nat → Nat) (base : Nat) :
    OutputMemoryStream.skip ⟨mem, base, 0⟩ 0 = ⟨mem, base, 0⟩ := by
  show (⟨mem, base + 0, wsub 0 0⟩ : OutputMemoryStream) = ⟨mem, base, 0⟩
  rw [show wsub 0 0 = 0 from rfl, Nat.add_zero]

/-! ### Claim theorems -/

/-- Claim C1: for a fixed-width scalar type of width `w = sizeof(T)` and any
read cursor state, `read<T>()` / `read(T&)` (the same function in this
embedding) fails with `malformed_packet` if and only if fewer than `w`
bytes remain; on success the output is exactly the `w` raw bytes at the
current position, copied verbatim with no byte-order conversion, the
memory is untouched, the position advances by `w` and the remaining count
decreases by `w`. -/
theorem c1_scalar_read (s : InputMemoryStream) (w : Nat) (hs : s.size_ < UMOD) :
    (s.read w = .error .malformed_packet ↔ s.size_ < w) ∧
    (∀ out s2, s.read w = .ok (out, s2) →
      out.length = w ∧
      (∀ i, i < w → out.getD i 0 = s.mem (s.buffer_ + i)) ∧
      s2.mem = s.mem ∧
      s2.buffer_ = s.buffer_ + w ∧
      s2.size_ = s.size_ - w) := by
  constructor
  · rw [InputMemoryStream.read]
    split
    case isTrue h =>
      simp only [InputMemoryStream.can_read, decide_eq_true_eq] at h
      simp only [reduceCtorEq, false_iff]
      omega
    case isFalse h =>
      simp only [InputMemoryStream.can_read, decide_eq_true_eq] at h
      simp only [true_iff]
      omega
  · intro out s2 hok
    rw [InputMemoryStream.read] at hok
    split at hok
    case isTrue h =>
      simp only [InputMemoryStream.can_read, decide_eq_true_eq] at h
      obtain ⟨hb, hs2⟩ := Prod.mk.injEq .. ▸ Except.ok.inj hok
      subst hb
      subst hs2
      refine ⟨readMemBytes_length _ _ _,
        fun i hi => readMemBytes_getD _ _ _ _ hi, rfl, rfl, ?_⟩
      show wsub s.size_ w = s.size_ - w
      exact wsub_eq_sub h hs
    case isFalse h => cases hok

/-- Claim C1 witness: a 2-byte read over the identity memory with 3 bytes
remaining at address 0. -/
theorem c1_scalar_read_witness :
    (3 : Nat) < UMOD ∧
    (InputMemoryStream.read ⟨fun a => a, 0, 3⟩ 2 = .error .malformed_packet ↔
      (3 : Nat) < 2) ∧
    (([0, 1] : List Nat).length = 2 ∧
      (∀ i, i < 2 → ([0, 1] : List Nat).getD i 0 = (0 : Nat) + i) ∧
      (⟨fun a => a, 2, 1⟩ : InputMemoryStream).mem = (fun a => a) ∧
      (⟨fun a => a, 2, 1⟩ : InputMemoryStream).buffer_ = 0 + 2 ∧
      (⟨fun a => a, 2, 1⟩ : InputMemoryStream).size_ = 3 - 2) :=
  ⟨by decide,
    (c1_scalar_read ⟨fun a => a, 0, 3⟩ 2 (by decide)).1,
    (c1_scalar_read ⟨fun a => a, 0, 3⟩ 2 (by decide)).2 [0, 1]
      ⟨fun a => a, 2, 1⟩ rfl⟩

/-- Claim C6: `skip(n)` performs unchecked `uint32` arithmetic: the
remaining count becomes `(r - n) mod 2^32` and the position advances by
`n`; in particular when `n` exceeds the remaining count `r` the count wraps
to `r + 2^32 - n`, which is strictly larger than `r` (for a fresh cursor,
`r` is the buffer length), so a subsequent `can_read` returns true for that
byte count even though it exceeds the buffer. -/
theorem c6_skip_wraps (s : InputMemoryStream) (n : Nat)
    (hs : s.size_ < UMOD) (hn : n < UMOD) :
    (((s.skip n).size_ : Int) = ((s.size_ : Int) - (n : Int)) % (UMOD : Int)) ∧
    (s.skip n).buffer_ = s.buffer_ + n ∧
    (s.size_ < n →
      (s.skip n).size_ = s.size_ + UMOD - n ∧
      s.size_ < (s.skip n).size_ ∧
      (s.skip n).can_read ((s.skip n).size_) = true) := by
  refine ⟨?_, rfl, fun h => ⟨?_, ?_, ?_⟩⟩
  · show ((wsub s.size_ n : Nat) : Int) = ((s.size_ : Int) - (n : Int)) % (UMOD : Int)
    rcases Nat.lt_or_ge s.size_ n with hlt | hge
    · rw [wsub_eq_wrap hlt hn, Nat.cast_sub (by omega : n ≤ s.size_ + UMOD),
        ← Int.add_emod_self, Int.emod_eq_of_lt (by omega) (by omega)]
      omega
    · rw [wsub_eq_sub hge hs, Nat.cast_sub hge,
        Int.emod_eq_of_lt (by omega) (by omega)]
  · exact wsub_eq_wrap h hn
  · show s.size_ < wsub s.size_ n
    rw [wsub_eq_wrap h hn]
    omega
  · simp [InputMemoryStream.can_read]

/-- Claim C6 witness: skipping 5 bytes on a cursor with 2 bytes remaining
wraps the remaining count to `2 + 2^32 - 5`. -/
theorem c6_skip_wraps_witness :
    (2 : Nat) < UMOD ∧ (5 : Nat) < UMOD ∧ (2 : Nat) < 5 ∧
    (InputMemoryStream.skip ⟨fun _ => 0, 0, 2⟩ 5).size_ = 2 + UMOD - 5 ∧
    (2 : Nat) < (InputMemoryStream.skip ⟨fun _ => 0, 0, 2⟩ 5).size_ ∧
    (InputMemoryStream.skip ⟨fun _ => 0, 0, 2⟩ 5).can_read
      ((InputMemoryStream.skip ⟨fun _ => 0, 0, 2⟩ 5).size_) = true :=
  ⟨by decide, by decide, by decide,
    ((c6_skip_wraps ⟨fun _ => 0, 0, 2⟩ 5 (by decide) (by decide)).2.2 (by decide)).1,
    ((c6_skip_wraps ⟨fun _ => 0, 0, 2⟩ 5 (by decide) (by decide)).2.2 (by decide)).2.1,
    ((c6_skip_wraps ⟨fun _ => 0, 0, 2⟩ 5 (by decide) (by decide)).2.2 (by decide)).2.2⟩

/-- Claim C8: over the 6-byte buffer `[0x01, 0x00, 0x00, 0x00, 0xAB, 0xCD]`,
the first 4-byte scalar read yields the bytes `[1, 0, 0, 0]`, value 1 on
the little-endian host; the second 2-byte read yields `[0xAB, 0xCD]`, value
`0xCDAB = 52651`; and a third read of any non-zero width fails with
`malformed_packet`. -/
theorem c8_scenario :
    InputMemoryStream.read ⟨buf8, 0, 6⟩ 4 = .ok ([1, 0, 0, 0], ⟨buf8, 4, 2⟩) ∧
    fromLE [1, 0, 0, 0] = 1 ∧
    InputMemoryStream.read ⟨buf8, 4, 2⟩ 2 = .ok ([171, 205], ⟨buf8, 6, 0⟩) ∧
    fromLE [171, 205] = 52651 ∧
    (∀ w, 0 < w →
      InputMemoryStream.read ⟨buf8, 6, 0⟩ w = .error .malformed_packet) := by
  refine ⟨rfl, rfl, rfl, rfl, fun w hw => ?_⟩
  rw [InputMemoryStream.read,
    if_neg (by simp [InputMemoryStream.can_read]; omega)]

/-- Claim C8 witness: the third-read conjunct applied at width 1. -/
theorem c8_scenario_witness :
    0 < 1 ∧
    InputMemoryStream.read ⟨buf8, 6, 0⟩ 1 = .error .malformed_packet :=
  ⟨by decide, c8_scenario.2.2.2.2 1 (by decide)⟩

/-- Claim C9: `fill(n, value)` fails with `serialization_error` exactly when
the remaining capacity is below `n`; on success it stores `value` at every
address of the `n`-byte window at the current position (and nowhere else),
advances the position by `n` and decreases the remaining capacity by `n`. -/
theorem c9_fill (s : OutputMemoryStream) (n v : Nat) (hs : s.size_ < UMOD) :
    ((s.fill n v).2 = some .serialization_error ↔ s.size_ < n) ∧
    (n ≤ s.size_ →
      (s.fill n v).2 = none ∧
      (∀ a, (s.fill n v).1.mem a =
        if s.buffer_ ≤ a ∧ a < s.buffer_ + n then v else s.mem a) ∧
      (s.fill n v).1.buffer_ = s.buffer_ + n ∧
      (s.fill n v).1.size_ = s.size_ - n) := by
  constructor
  · rw [OutputMemoryStream.fill]
    split
    case isTrue h => simp only [true_iff]; omega
    case isFalse h => simp only [reduceCtorEq, false_iff]; omega
  · intro h
    rw [OutputMemoryStream.fill, if_neg (by omega)]
    refine ⟨rfl, fun a => ?_, rfl, ?_⟩
    · show writeMemBytes s.mem s.buffer_ (List.replicate n v) a = _
      rw [writeMemBytes_eq_ite]
      simp only [List.length_replicate]
      split_ifs with hcond
      · exact getD_replicate _ _ _ (by omega)
      · rfl
    · show wsub s.size_ n = s.size_ - n
      exact wsub_eq_sub h hs

/-- Claim C9 witness: `fill` over a 4-byte buffer at address 0, filling 3
bytes with value 7. -/
theorem c9_fill_witness :
    ((⟨fun _ => 0, 0, 4⟩ : OutputMemoryStream).size_ < UMOD) ∧
    ((((⟨fun _ => 0, 0, 4⟩ : OutputMemoryStream).fill 3 7).2 =
        some .serialization_error ↔
      (⟨fun _ => 0, 0, 4⟩ : OutputMemoryStream).size_ < 3) ∧
    (3 ≤ (⟨fun _ => 0, 0, 4⟩ : OutputMemoryStream).size_ →
      (((⟨fun _ => 0, 0, 4⟩ : OutputMemoryStream).fill 3 7).2 = none ∧
      (∀ a, (((⟨fun _ => 0, 0, 4⟩ : OutputMemoryStream).fill 3 7).1.mem a =
        if (⟨fun _ => 0, 0, 4⟩ : OutputMemoryStream).buffer_ ≤ a ∧
            a < (⟨fun _ => 0, 0, 4⟩ : OutputMemoryStream).buffer_ + 3 then 7
        else (⟨fun _ => 0, 0, 4⟩ : OutputMemoryStream).mem a)) ∧
      (((⟨fun _ => 0, 0, 4⟩ : OutputMemoryStream).fill 3 7).1.buffer_ =
        (⟨fun _ => 0, 0, 4⟩ : OutputMemoryStream).buffer_ + 3 ∧
      ((⟨fun _ => 0, 0, 4⟩ : OutputMemoryStream).fill 3 7).1.size_ =
        (⟨fun _ => 0, 0, 4⟩ : OutputMemoryStream).size_ - 3)))) :=
  ⟨by decide, c9_fill ⟨fun _ => 0, 0, 4⟩ 3 7 (by decide)⟩

/-- Claim C5: on a freshly constructed read cursor over a buffer of length
`L`, `can_read(n)` returns true exactly when `n ≤ L` (and false when
`n > L`).  In this embedding `can_read` is a function of the cursor state
returning only a `Bool`, so it has no side effect on the cursor. -/
theorem c5_can_read_fresh (mem : Nat → Nat) (base L n : Nat) :
    (InputMemoryStream.can_read ⟨mem, base, L⟩ n) = true ↔ n ≤ L := by
  simp [InputMemoryStream.can_read]

/-- Claim C10: the boolean conversion of a read cursor returns true exactly
when the remaining byte count is positive; in this embedding it is a
function of the state returning only a `Bool`, so it does not modify the
cursor. -/
theorem c10_bool_conversion (s : InputMemoryStream) :
    s.toBool = true ↔ 0 < s.size_ := by
  simp [InputMemoryStream.toBool]

/-- Claim C4 (amended): the invariant `remaining ≤ original length - bytes
consumed` (and, `size_` being unsigned, never negative) holds after any
sequence of cursor operations provided each `skip(n)` and each
`size(new_size)` call respects the spec's discipline for the unchecked
primitives — `n ≤ remaining`, respectively `new_size ≤ remaining`
(truncation only).  Checked reads, succeeding or failing, need no side
condition.  Unrestricted `skip` or `size(new_size)` breaks the invariant
(see the counterexample). -/
theorem c4_invariant_disciplined (mem : Nat → Nat) (base L : Nat)
    (ops : List ROp) (hL : L < UMOD)
    (hv : validSeq ⟨mem, base, L⟩ ops = true) :
    base ≤ (execSeq ⟨mem, base, L⟩ ops).buffer_ ∧
    (execSeq ⟨mem, base, L⟩ ops).size_ ≤
      L - ((execSeq ⟨mem, base, L⟩ ops).buffer_ - base) := by
  have main : ∀ (l : List ROp) (s : InputMemoryStream),
      ReadInv base L s → validSeq s l = true → ReadInv base L (execSeq s l) := by
    intro l
    induction l with
    | nil => intro s h _; exact h
    | cons op rest ih =>
      intro s h hv2
      have hv3 : validStep s op = true ∧ validSeq (execOp s op) rest = true := by
        simpa [validSeq, Bool.and_eq_true] using hv2
      exact ih (execOp s op) (readInv_execOp hL op h hv3.1) hv3.2
  have hInit : ReadInv base L ⟨mem, base, L⟩ := by
    show base ≤ base ∧ base - base + L ≤ L
    omega
  have h2 : base ≤ (execSeq ⟨mem, base, L⟩ ops).buffer_ ∧
      (execSeq ⟨mem, base, L⟩ ops).buffer_ - base +
        (execSeq ⟨mem, base, L⟩ ops).size_ ≤ L :=
    main ops ⟨mem, base, L⟩ hInit hv
  exact ⟨h2.1, by omega⟩

/-- Claim C4 counterexample: on a fresh cursor over a 1-byte buffer, the
single-operation sequence `size(5)` drives the remaining count to 5, which
exceeds the original length (1) minus the bytes consumed (0) — so the
invariant does not survive arbitrary use of the `size(new_size)` setter,
contrary to the claim. -/
theorem c4_counterexample :
    ¬ ((execSeq ⟨fun _ => 0, 0, 1⟩ [ROp.rsetSize 5]).size_ ≤
        1 - ((execSeq ⟨fun _ => 0, 0, 1⟩ [ROp.rsetSize 5]).buffer_ - 0)) := by
  decide

/-- Claim C4 witness: a checked 4-byte read, a 1-byte skip and a truncating
`size(1)` over a 6-byte buffer. -/
theorem c4_invariant_witness :
    (6 : Nat) < UMOD ∧
    validSeq ⟨fun _ => 0, 0, 6⟩ [ROp.rread 4, ROp.rskip 1, ROp.rsetSize 1] = true ∧
    (0 ≤ (execSeq ⟨fun _ => 0, 0, 6⟩
        [ROp.rread 4, ROp.rskip 1, ROp.rsetSize 1]).buffer_ ∧
      (execSeq ⟨fun _ => 0, 0, 6⟩
          [ROp.rread 4, ROp.rskip 1, ROp.rsetSize 1]).size_ ≤
        6 - ((execSeq ⟨fun _ => 0, 0, 6⟩
            [ROp.rread 4, ROp.rskip 1, ROp.rsetSize 1]).buffer_ - 0)) :=
  ⟨by decide, by decide,
    c4_invariant_disciplined (fun _ => 0) 0 6
      [ROp.rread 4, ROp.rskip 1, ROp.rsetSize 1] (by decide) (by decide)⟩

/-- Claim C2: for every write-cursor operation — scalar write, range write,
pointer+length write, the three address writes, and `fill` — a requested
byte count exceeding the remaining capacity makes the operation fail with
`serialization_error` while returning the input state unchanged: same
memory (destination buffer untouched), same position, same remaining
capacity.  The check precedes the copy, so no partial write occurs. -/
theorem c2_write_failure_leaves_state (s : OutputMemoryStream) :
    (∀ bs : List Nat, s.size_ < bs.length →
      s.write_range bs = (s, some .serialization_error)) ∧
    (∀ w v, s.size_ < w →
      s.write_scalar w v = (s, some .serialization_error)) ∧
    (∀ (srcMem : Nat → Nat) (p len : Nat), s.size_ < len →
      s.write_ptr srcMem p len = (s, some .serialization_error)) ∧
    (∀ a : IPv4Address, s.size_ < 4 →
      s.write_ipv4 a = (s, some .serialization_error)) ∧
    (∀ a : IPv6Address, s.size_ < a.bytes.length →
      s.write_ipv6 a = (s, some .serialization_error)) ∧
    (∀ (n : Nat) (a : HWAddress n), s.size_ < a.bytes.length →
      s.write_hw a = (s, some .serialization_error)) ∧
    (∀ n v, s.size_ < n → s.fill n v = (s, some .serialization_error)) := by
  refine ⟨?_, ?_, ?_, ?_, ?_, ?_, ?_⟩
  · intro bs h
    rw [OutputMemoryStream.write_range, if_pos h]
  · intro w v h
    rw [OutputMemoryStream.write_scalar, if_pos h]
  · intro srcMem p len h
    rw [OutputMemoryStream.write_ptr, OutputMemoryStream.write_range,
      if_pos (by rw [readMemBytes_length]; exact h)]
  · intro a h
    rw [OutputMemoryStream.write_ipv4, OutputMemoryStream.write_scalar, if_pos h]
  · intro a h
    rw [OutputMemoryStream.write_ipv6, OutputMemoryStream.write_range, if_pos h]
  · intro n a h
    rw [OutputMemoryStream.write_hw, OutputMemoryStream.write_range, if_pos h]
  · intro n v h
    rw [OutputMemoryStream.fill, if_pos h]

/-- Claim C2 witness: every operation kind over a 1-byte-capacity cursor,
each requesting more than 1 byte. -/
theorem c2_write_failure_witness :
    ((⟨fun _ => 0, 0, 1⟩ : OutputMemoryStream).size_ < ([5, 6] : List Nat).length ∧
      OutputMemoryStream.write_range ⟨fun _ => 0, 0, 1⟩ [5, 6] =
        (⟨fun _ => 0, 0, 1⟩, some .serialization_error)) ∧
    ((⟨fun _ => 0, 0, 1⟩ : OutputMemoryStream).size_ < 2 ∧
      OutputMemoryStream.write_scalar ⟨fun _ => 0, 0, 1⟩ 2 7 =
        (⟨fun _ => 0, 0, 1⟩, some .serialization_error)) ∧
    ((⟨fun _ => 0, 0, 1⟩ : OutputMemoryStream).size_ < 2 ∧
      OutputMemoryStream.write_ptr ⟨fun _ => 0, 0, 1⟩ (fun _ => 9) 0 2 =
        (⟨fun _ => 0, 0, 1⟩, some .serialization_error)) ∧
    ((⟨fun _ => 0, 0, 1⟩ : OutputMemoryStream).size_ < 4 ∧
      OutputMemoryStream.write_ipv4 ⟨fun _ => 0, 0, 1⟩ ⟨3⟩ =
        (⟨fun _ => 0, 0, 1⟩, some .serialization_error)) ∧
    ((⟨fun _ => 0, 0, 1⟩ : OutputMemoryStream).size_ <
        (IPv6Address.mk [1, 2]).bytes.length ∧
      OutputMemoryStream.write_ipv6 ⟨fun _ => 0, 0, 1⟩ ⟨[1, 2]⟩ =
        (⟨fun _ => 0, 0, 1⟩, some .serialization_error)) ∧
    ((⟨fun _ => 0, 0, 1⟩ : OutputMemoryStream).size_ <
        (⟨[1, 2]⟩ : HWAddress 2).bytes.length ∧
      OutputMemoryStream.write_hw ⟨fun _ => 0, 0, 1⟩ (⟨[1, 2]⟩ : HWAddress 2) =
        (⟨fun _ => 0, 0, 1⟩, some .serialization_error)) ∧
    ((⟨fun _ => 0, 0, 1⟩ : OutputMemoryStream).size_ < 3 ∧
      OutputMemoryStream.fill ⟨fun _ => 0, 0, 1⟩ 3 9 =
        (⟨fun _ => 0, 0, 1⟩, some .serialization_error)) :=
  ⟨⟨by decide, (c2_write_failure_leaves_state ⟨fun _ => 0, 0, 1⟩).1 [5, 6] (by decide)⟩,
    ⟨by decide, (c2_write_failure_leaves_state ⟨fun _ => 0, 0, 1⟩).2.1 2 7 (by decide)⟩,
    ⟨by decide, (c2_write_failure_leaves_state ⟨fun _ => 0, 0, 1⟩).2.2.1
      (fun _ => 9) 0 2 (by decide)⟩,
    ⟨by decide, (c2_write_failure_leaves_state ⟨fun _ => 0, 0, 1⟩).2.2.2.1 ⟨3⟩ (by decide)⟩,
    ⟨by decide, (c2_write_failure_leaves_state ⟨fun _ => 0, 0, 1⟩).2.2.2.2.1
      ⟨[1, 2]⟩ (by decide)⟩,
    ⟨by decide, (c2_write_failure_leaves_state ⟨fun _ => 0, 0, 1⟩).2.2.2.2.2.1 2
      (⟨[1, 2]⟩ : HWAddress 2) (by decide)⟩,
    ⟨by decide, (c2_write_failure_leaves_state ⟨fun _ => 0, 0, 1⟩).2.2.2.2.2.2 3 9
      (by decide)⟩⟩

/-- Claim C3: round-trip.  Writing a scalar of width `w` holding `v` into a
buffer of capacity at least `w` and reading a scalar of the same width back
over the same bytes yields `v` bit-identically; likewise writing an
IPv4Address, an IPv6Address, or an `HWAddress<n>` and reading it back
yields an equal address value.  (`a.addr < 256^4` is exactly the range of a
`uint32_t`, and the length side conditions are the address types' fixed
widths.) -/
theorem c3_roundtrip (mem : Nat → Nat) (base cap : Nat) :
    (∀ w v, w ≤ cap → v < 256 ^ w →
      (OutputMemoryStream.write_scalar ⟨mem, base, cap⟩ w v).2 = none ∧
      (InputMemoryStream.read
          ⟨(OutputMemoryStream.write_scalar ⟨mem, base, cap⟩ w v).1.mem, base, cap⟩
          w).map (fun p => fromLE p.1) = .ok v) ∧
    (∀ a : IPv4Address, 4 ≤ cap → a.addr < 256 ^ 4 →
      (OutputMemoryStream.write_ipv4 ⟨mem, base, cap⟩ a).2 = none ∧
      (InputMemoryStream.read_ipv4
          ⟨(OutputMemoryStream.write_ipv4 ⟨mem, base, cap⟩ a).1.mem, base, cap⟩).map
        (fun p => p.1) = .ok a) ∧
    (∀ a : IPv6Address, a.bytes.length = 16 → 16 ≤ cap →
      (OutputMemoryStream.write_ipv6 ⟨mem, base, cap⟩ a).2 = none ∧
      (InputMemoryStream.read_ipv6
          ⟨(OutputMemoryStream.write_ipv6 ⟨mem, base, cap⟩ a).1.mem, base, cap⟩).map
        (fun p => p.1) = .ok a) ∧
    (∀ (n : Nat) (a : HWAddress n), a.bytes.length = n → n ≤ cap →
      (OutputMemoryStream.write_hw ⟨mem, base, cap⟩ a).2 = none ∧
      (InputMemoryStream.read_hw
          ⟨(OutputMemoryStream.write_hw ⟨mem, base, cap⟩ a).1.mem, base, cap⟩ n).map
        (fun p => p.1) = .ok a) := by
  refine ⟨?_, ?_, ?_, ?_⟩
  · intro w v hw hv
    rw [write_scalar_ok ⟨mem, base, cap⟩ w v hw]
    refine ⟨rfl, ?_⟩
    dsimp only
    rw [read_ok ⟨writeMemBytes mem base (bytesLE w v), base, cap⟩ w hw]
    simp only [Except.map]
    rw [readMemBytes_writeMemBytes_of_length mem base (bytesLE w v) w
      (bytesLE_length w v).symm]
    rw [fromLE_bytesLE hv]
  · intro a h4 ha
    simp only [OutputMemoryStream.write_ipv4]
    rw [write_scalar_ok ⟨mem, base, cap⟩ 4 a.addr h4]
    refine ⟨rfl, ?_⟩
    dsimp only
    simp only [InputMemoryStream.read_ipv4]
    rw [read_ok ⟨writeMemBytes mem base (bytesLE 4 a.addr), base, cap⟩ 4 h4]
    simp only [Except.map]
    rw [readMemBytes_writeMemBytes_of_length mem base (bytesLE 4 a.addr) 4
      (bytesLE_length 4 a.addr).symm]
    rw [fromLE_bytesLE ha]
  · intro a hlen hcap
    simp only [OutputMemoryStream.write_ipv6]
    rw [write_range_ok ⟨mem, base, cap⟩ a.bytes (show a.bytes.length ≤ cap by omega)]
    refine ⟨rfl, ?_⟩
    dsimp only
    rw [read_ipv6_ok ⟨writeMemBytes mem base a.bytes, base, cap⟩ hcap]
    simp only [Except.map]
    rw [readMemBytes_writeMemBytes_of_length mem base a.bytes 16 hlen.symm]
  · intro n a hlen hcap
    simp only [OutputMemoryStream.write_hw]
    rw [write_range_ok ⟨mem, base, cap⟩ a.bytes (show a.bytes.length ≤ cap by omega)]
    refine ⟨rfl, ?_⟩
    dsimp only
    rw [read_hw_ok ⟨writeMemBytes mem base a.bytes, base, cap⟩ n hcap]
    simp only [Except.map]
    rw [readMemBytes_writeMemBytes_of_length mem base a.bytes n hlen.symm]

/-- Claim C3 witness: a 2-byte scalar holding 513, IPv4 address 1, a
concrete 16-byte IPv6 address and a 2-byte hardware address, over a
16-byte buffer. -/
theorem c3_roundtrip_witness :
    ((2 : Nat) ≤ 16 ∧ (513 : Nat) < 256 ^ 2 ∧
      (OutputMemoryStream.write_scalar ⟨fun _ => 0, 0, 16⟩ 2 513).2 = none ∧
      (InputMemoryStream.read
          ⟨(OutputMemoryStream.write_scalar ⟨fun _ => 0, 0, 16⟩ 2 513).1.mem, 0, 16⟩
          2).map (fun p => fromLE p.1) = .ok 513) ∧
    ((4 : Nat) ≤ 16 ∧ (IPv4Address.mk 1).addr < 256 ^ 4 ∧
      (OutputMemoryStream.write_ipv4 ⟨fun _ => 0, 0, 16⟩ ⟨1⟩).2 = none ∧
      (InputMemoryStream.read_ipv4
          ⟨(OutputMemoryStream.write_ipv4 ⟨fun _ => 0, 0, 16⟩ ⟨1⟩).1.mem, 0, 16⟩).map
        (fun p => p.1) = .ok ⟨1⟩) ∧
    ((IPv6Address.mk [3, 1, 4, 1, 5, 9, 2, 6, 5, 3, 5, 8, 9, 7, 9, 3]).bytes.length = 16 ∧
      (16 : Nat) ≤ 16 ∧
      (OutputMemoryStream.write_ipv6 ⟨fun _ => 0, 0, 16⟩
        ⟨[3, 1, 4, 1, 5, 9, 2, 6, 5, 3, 5, 8, 9, 7, 9, 3]⟩).2 = none ∧
      (InputMemoryStream.read_ipv6
          ⟨(OutputMemoryStream.write_ipv6 ⟨fun _ => 0, 0, 16⟩
            ⟨[3, 1, 4, 1, 5, 9, 2, 6, 5, 3, 5, 8, 9, 7, 9, 3]⟩).1.mem, 0, 16⟩).map
        (fun p => p.1) = .ok ⟨[3, 1, 4, 1, 5, 9, 2, 6, 5, 3, 5, 8, 9, 7, 9, 3]⟩) ∧
    (((⟨[9, 8]⟩ : HWAddress 2)).bytes.length = 2 ∧ (2 : Nat) ≤ 16 ∧
      (OutputMemoryStream.write_hw ⟨fun _ => 0, 0, 16⟩ (⟨[9, 8]⟩ : HWAddress 2)).2 = none ∧
      (InputMemoryStream.read_hw
          ⟨(OutputMemoryStream.write_hw ⟨fun _ => 0, 0, 16⟩
            (⟨[9, 8]⟩ : HWAddress 2)).1.mem, 0, 16⟩ 2).map
        (fun p => p.1) = .ok ⟨[9, 8]⟩) :=
  ⟨⟨by decide, by decide,
    ((c3_roundtrip (fun _ => 0) 0 16).1 2 513 (by decide) (by decide)).1,
    ((c3_roundtrip (fun _ => 0) 0 16).1 2 513 (by decide) (by decide)).2⟩,
  ⟨by decide, by decide,
    ((c3_roundtrip (fun _ => 0) 0 16).2.1 ⟨1⟩ (by decide) (by decide)).1,
    ((c3_roundtrip (fun _ => 0) 0 16).2.1 ⟨1⟩ (by decide) (by decide)).2⟩,
  ⟨by decide, by decide,
    ((c3_roundtrip (fun _ => 0) 0 16).2.2.1
      ⟨[3, 1, 4, 1, 5, 9, 2, 6, 5, 3, 5, 8, 9, 7, 9, 3]⟩ (by decide) (by decide)).1,
    ((c3_roundtrip (fun _ => 0) 0 16).2.2.1
      ⟨[3, 1, 4, 1, 5, 9, 2, 6, 5, 3, 5, 8, 9, 7, 9, 3]⟩ (by decide) (by decide)).2⟩,
  ⟨by decide, by decide,
    ((c3_roundtrip (fun _ => 0) 0 16).2.2.2 2 (⟨[9, 8]⟩ : HWAddress 2)
      (by decide) (by decide)).1,
    ((c3_roundtrip (fun _ => 0) 0 16).2.2.2 2 (⟨[9, 8]⟩ : HWAddress 2)
      (by decide) (by decide)).2⟩⟩

/-- Claim C7: over a zero-length buffer the read cursor converts to boolean
false; every read or write requesting a non-zero byte count fails —
`malformed_packet` on the read side, `serialization_error` on the write
side, with the write cursor and buffer unchanged — and every zero-size
operation (zero-byte bulk read, zero-width scalar read/write, empty range
write, zero-length fill) succeeds without changing the state. -/
theorem c7_zero_length (mem : Nat → Nat) (base : Nat) :
    InputMemoryStream.toBool ⟨mem, base, 0⟩ = false ∧
    (∀ w, 0 < w →
      InputMemoryStream.read ⟨mem, base, 0⟩ w = .error .malformed_packet) ∧
    (∀ n, 0 < n →
      InputMemoryStream.read_buf ⟨mem, base, 0⟩ n = .error .malformed_packet) ∧
    InputMemoryStream.read_ipv4 ⟨mem, base, 0⟩ = .error .malformed_packet ∧
    InputMemoryStream.read_ipv6 ⟨mem, base, 0⟩ = .error .malformed_packet ∧
    (∀ n, 0 < n →
      InputMemoryStream.read_hw ⟨mem, base, 0⟩ n = .error .malformed_packet) ∧
    (∀ w v, 0 < w →
      OutputMemoryStream.write_scalar ⟨mem, base, 0⟩ w v =
        (⟨mem, base, 0⟩, some .serialization_error)) ∧
    (∀ bs : List Nat, 0 < bs.length →
      OutputMemoryStream.write_range ⟨mem, base, 0⟩ bs =
        (⟨mem, base, 0⟩, some .serialization_error)) ∧
    (∀ n v, 0 < n →
      OutputMemoryStream.fill ⟨mem, base, 0⟩ n v =
        (⟨mem, base, 0⟩, some .serialization_error)) ∧
    InputMemoryStream.read_buf ⟨mem, base, 0⟩ 0 = .ok ([], ⟨mem, base, 0⟩) ∧
    InputMemoryStream.read ⟨mem, base, 0⟩ 0 = .ok ([], ⟨mem, base, 0⟩) ∧
    OutputMemoryStream.write_range ⟨mem, base, 0⟩ [] = (⟨mem, base, 0⟩, none) ∧
    (∀ v, OutputMemoryStream.write_scalar ⟨mem, base, 0⟩ 0 v =
      (⟨mem, base, 0⟩, none)) ∧
    (∀ v, OutputMemoryStream.fill ⟨mem, base, 0⟩ 0 v = (⟨mem, base, 0⟩, none)) := by
  refine ⟨rfl, ?_, ?_, rfl, rfl, ?_, ?_, ?_, ?_, ?_, ?_, ?_, ?_, ?_⟩
  · intro w hw
    rw [InputMemoryStream.read,
      if_neg (by simp only [InputMemoryStream.can_read, decide_eq_true_eq]; omega)]
  · intro n hn
    rw [InputMemoryStream.read_buf,
      if_neg (by simp only [InputMemoryStream.can_read, decide_eq_true_eq]; omega)]
  · intro n hn
    rw [InputMemoryStream.read_hw,
      if_neg (by simp only [InputMemoryStream.can_read, decide_eq_true_eq]; omega)]
  · intro w v hw
    rw [OutputMemoryStream.write_scalar, if_pos (by dsimp only; omega)]
  · intro bs hbs
    rw [OutputMemoryStream.write_range, if_pos (by dsimp only; omega)]
  · intro n v hn
    rw [OutputMemoryStream.fill, if_pos (by dsimp only; omega)]
  · rw [InputMemoryStream.read_buf,
      if_pos (show (⟨mem, base, 0⟩ : InputMemoryStream).can_read 0 = true from rfl),
      input_skip_zero]
    rfl
  · rw [InputMemoryStream.read,
      if_pos (show (⟨mem, base, 0⟩ : InputMemoryStream).can_read 0 = true from rfl),
      input_skip_zero]
    rfl
  · rw [OutputMemoryStream.write_range, if_neg (by simp)]
    show (OutputMemoryStream.skip ⟨writeMemBytes mem base [], base, 0⟩ 0, none) =
      ((⟨mem, base, 0⟩ : OutputMemoryStream), none)
    rw [output_skip_zero (writeMemBytes mem base []) base]
    rfl
  · intro v
    rw [OutputMemoryStream.write_scalar, if_neg (by omega)]
    show (OutputMemoryStream.skip
        ⟨writeMemBytes mem base (bytesLE 0 v), base, 0⟩ 0, none) =
      ((⟨mem, base, 0⟩ : OutputMemoryStream), none)
    rw [output_skip_zero (writeMemBytes mem base (bytesLE 0 v)) base]
    rfl
  · intro v
    rw [OutputMemoryStream.fill, if_neg (by omega)]
    show (OutputMemoryStream.skip
        ⟨writeMemBytes mem base (List.replicate 0 v), base, 0⟩ 0, none) =
      ((⟨mem, base, 0⟩ : OutputMemoryStream), none)
    rw [output_skip_zero (writeMemBytes mem base (List.replicate 0 v)) base]
    rfl

/-- Claim C7 witness: each non-zero-size operation kind at count 1 over the
zero-length buffer at address 0. -/
theorem c7_zero_length_witness :
    0 < 1 ∧ 0 < ([7] : List Nat).length ∧
    InputMemoryStream.read ⟨fun _ => 0, 0, 0⟩ 1 = .error .malformed_packet ∧
    InputMemoryStream.read_buf ⟨fun _ => 0, 0, 0⟩ 1 = .error .malformed_packet ∧
    InputMemoryStream.read_hw ⟨fun _ => 0, 0, 0⟩ 1 = .error .malformed_packet ∧
    OutputMemoryStream.write_scalar ⟨fun _ => 0, 0, 0⟩ 1 5 =
      (⟨fun _ => 0, 0, 0⟩, some .serialization_error) ∧
    OutputMemoryStream.write_range ⟨fun _ => 0, 0, 0⟩ [7] =
      (⟨fun _ => 0, 0, 0⟩, some .serialization_error) ∧
    OutputMemoryStream.fill ⟨fun _ => 0, 0, 0⟩ 1 5 =
      (⟨fun _ => 0, 0, 0⟩, some .serialization_error) :=
  ⟨by decide, by decide,
    (c7_zero_length (fun _ => 0) 0).2.1 1 (by decide),
    (c7_zero_length (fun _ => 0) 0).2.2.1 1 (by decide),
    (c7_zero_length (fun _ => 0) 0).2.2.2.2.2.1 1 (by decide),
    (c7_zero_length (fun _ => 0) 0).2.2.2.2.2.2.1 1 5 (by decide),
    (c7_zero_length (fun _ => 0) 0).2.2.2.2.2.2.2.1 [7] (by decide),
    (c7_zero_length (fun _ => 0) 0).2.2.2.2.2.2.2.2.1 1 5 (by decide)⟩

end Memory
end Tins
